import Mathlib

/-!
Verification of `src/inventory_system.py`: a minimal inventory tracker
keeping a mapping from item name to quantity, with add/remove/query
operations, JSON-file persistence and a low-stock report.

The Python dictionary `Dict[str, int]` is embedded as an ordered
association list `List (String × Int)`: Python dicts iterate in insertion
order, an assignment to an existing key keeps its position, an assignment
to a fresh key appends it at the end, and `del` removes the entry.
Dynamically typed arguments (the code checks `isinstance(item, str)` and
`isinstance(qty, int)`, and catches `TypeError` from `int - qty`) are
embedded as a small dynamic-value type `PyVal`.
-/

namespace Inventory

/-- A dynamically typed Python value, as far as the inventory code can
distinguish them: a text value, an integer value, or any other object
(such as `None`), which is neither text nor numeric. -/
inductive PyVal where
  | str (s : String)
  | int (n : Int)
  | obj
deriving DecidableEq, Repr

/-- `isinstance(v, str)`. -/
def PyVal.isStr : PyVal → Bool
  | .str _ => true
  | _ => false

/-- `isinstance(v, int)`. -/
def PyVal.isInt : PyVal → Bool
  | .int _ => true
  | _ => false

/-- The inventory: a Python `Dict[str, int]` in iteration (= insertion)
order. -/
abbrev Inv := List (String × Int)

/-- Dictionary lookup `inventory.get(item)` / `item in inventory`:
the value at the first (in a real dict: only) entry for the key. -/
def lookup : Inv → String → Option Int
  | [], _ => none
  | (k, v) :: rest, item => if k = item then some v else lookup rest item

/-- Dictionary assignment `inventory[item] = v`: replace the value at an
existing key in place, or append a fresh key at the end. -/
def dictSet : Inv → String → Int → Inv
  | [], item, v => [(item, v)]
  | (k, w) :: rest, item, v =>
      if k = item then (item, v) :: rest else (k, w) :: dictSet rest item v

/-- Dictionary deletion `del inventory[item]`: drop the (first) entry for
the key. -/
def dictDel : Inv → String → Inv
  | [], _ => []
  | (k, w) :: rest, item => if k = item then rest else (k, w) :: dictDel rest item

/-- Well-formedness of a real Python dict: its keys are pairwise distinct. -/
def keysNodup (inventory : Inv) : Prop := (inventory.map Prod.fst).Nodup

/-- `add_item(inventory, item, qty)` (src/inventory_system.py lines 15-31):
if `item` is not a `str` or `qty` is not an `int`, print an error and
return without mutating; otherwise set
`inventory[item] = inventory.get(item, 0) + qty`. -/
def add_item (inventory : Inv) (item qty : PyVal) : Inv :=
  match item, qty with
  | .str s, .int n => dictSet inventory s ((lookup inventory s).getD 0 + n)
  | _, _ => inventory

/-- `remove_item(inventory, item, qty)` (src/inventory_system.py lines
34-56): if `item not in inventory`, warn and return unchanged. Otherwise
run `inventory[item] -= qty`; if `qty` is not a numeric type the
subtraction raises `TypeError` before any assignment, the handler prints
an error and the state is unchanged. On the numeric path the stored value
becomes `q - n`; if that is `<= 0` the entry is deleted. -/
def remove_item (inventory : Inv) (item : String) (qty : PyVal) : Inv :=
  match lookup inventory item with
  | none => inventory
  | some q =>
      match qty with
      | .int n =>
          if q - n ≤ 0 then dictDel (dictSet inventory item (q - n)) item
          else dictSet inventory item (q - n)
      | _ => inventory

/-- `get_qty(inventory, item)` (src/inventory_system.py lines 59-70):
`inventory.get(item, 0)`. -/
def get_qty (inventory : Inv) (item : String) : Int :=
  (lookup inventory item).getD 0

/-- `check_low_items(inventory, threshold)` (src/inventory_system.py lines
133-145): the list comprehension
`[item for item, qty in inventory.items() if qty < threshold]`,
walking the mapping in iteration order. It builds a fresh list and never
mutates the inventory. -/
def check_low_items : Inv → Int → List String
  | [], _ => []
  | (item, qty) :: rest, threshold =>
      if qty < threshold then item :: check_low_items rest threshold
      else check_low_items rest threshold

/-- A JSON value, as produced by `json.load`. -/
inductive JVal where
  | jnull
  | jbool (b : Bool)
  | jint (n : Int)
  | jstr (s : String)
  | jarr (elems : List JVal)
  | jobj (entries : List (String × JVal))

/-- `isinstance(data, dict)` on a parsed JSON value. -/
def JVal.isDict : JVal → Bool
  | .jobj _ => true
  | _ => false

/-- The entries of a JSON object (the object case is the only one the code
reaches it in). -/
def JVal.entries : JVal → List (String × JVal)
  | .jobj es => es
  | _ => []

/-- What `open` + `json.load` can encounter at a path: no file
(`FileNotFoundError`), a file whose text does not parse
(`json.JSONDecodeError`), or a file holding the text of a JSON value. -/
inductive FileContent where
  | absent
  | invalidText
  | jsonOf (v : JVal)

/-- The file system, one content per path. -/
abbrev FS := String → FileContent

/-- `load_data(filename)` (src/inventory_system.py lines 73-96): try to
open and parse the file; on `FileNotFoundError` or `JSONDecodeError`
print a message and return `{}`; if the parsed data is not a dict print
an error and return `{}`; otherwise return the parsed dict. -/
def load_data (filename : String) (fs : FS) : List (String × JVal) :=
  match fs filename with
  | .absent => []
  | .invalidText => []
  | .jsonOf data => if data.isDict then data.entries else []

/-- The JSON value `json.dump` writes for a `Dict[str, int]`. -/
def toJson (inventory : Inv) : JVal :=
  .jobj (inventory.map (fun p => (p.1, JVal.jint p.2)))

/-- `save_data(inventory, filename)` (src/inventory_system.py lines
99-114): serialize the mapping as a JSON object at the path. The model
works at the JSON-value level: `json.dump` on a `str`-keyed, `int`-valued
dict writes text that `json.load` parses back to the same object, and the
write is taken to succeed (the `IOError` handler only prints). -/
def save_data (inventory : Inv) (filename : String) (fs : FS) : FS :=
  fun fn => if fn = filename then .jsonOf (toJson inventory) else fs fn

/-- One well-typed mutation of the demo-style call sequence: an add or a
remove with a text item and an integer quantity. -/
inductive Op where
  | add (item : String) (qty : Int)
  | remove (item : String) (qty : Int)
deriving DecidableEq, Repr

/-- Run one operation against the inventory. -/
def applyOp (inventory : Inv) : Op → Inv
  | .add s n => add_item inventory (.str s) (.int n)
  | .remove s n => remove_item inventory s (.int n)

/-- Run a sequence of operations left to right. -/
def runOps (inventory : Inv) : List Op → Inv
  | [] => inventory
  | op :: rest => runOps (applyOp inventory op) rest

/-- Modelled from the spec's words for claim C1, as the quantity a single
item should show after a trace: each `Add` of the item adds its quantity
to the running sum (an absent entry counts as 0), each `Remove` of a
present item subtracts its quantity, except that a removal driving the
quantity to 0 or below deletes the entry (state `none`), after which
`GetQuantity` reads 0; a removal of an absent item removes nothing. -/
def specStep (item : String) (st : Option Int) : Op → Option Int
  | .add s n => if s = item then some (st.getD 0 + n) else st
  | .remove s n =>
      if s = item then
        match st with
        | none => none
        | some q => if q - n ≤ 0 then none else some (q - n)
      else st

/-- The quantity the spec predicts for `item` after `ops` run on an
initially empty inventory. -/
def specQty (item : String) (ops : List Op) : Int :=
  (ops.foldl (specStep item) none).getD 0

/-! ## Dictionary lemmas -/

theorem lookup_eq_none_iff (inventory : Inv) (k : String) :
    lookup inventory k = none ↔ k ∉ inventory.map Prod.fst := by
  induction inventory with
  | nil => simp [lookup]
  | cons p rest ih =>
      obtain ⟨k', w⟩ := p
      by_cases h : k' = k
      · subst h
        simp [lookup]
      · simp only [lookup, if_neg h, ih, List.map_cons, List.mem_cons, not_or]
        exact ⟨fun hk => ⟨fun he => h he.symm, hk⟩, fun hk => hk.2⟩

theorem lookup_dictSet_self (inventory : Inv) (k : String) (v : Int) :
    lookup (dictSet inventory k v) k = some v := by
  induction inventory with
  | nil => simp [dictSet, lookup]
  | cons p rest ih =>
      obtain ⟨k', w⟩ := p
      by_cases h : k' = k <;> simp [dictSet, lookup, h, ih]

theorem lookup_dictSet_ne (inventory : Inv) (k : String) (v : Int) (k' : String)
    (h : k' ≠ k) : lookup (dictSet inventory k v) k' = lookup inventory k' := by
  induction inventory with
  | nil => simp [dictSet, lookup, Ne.symm h]
  | cons p rest ih =>
      obtain ⟨a, w⟩ := p
      by_cases ha : a = k
      · subst ha
        simp [dictSet, lookup, Ne.symm h]
      · simp [dictSet, lookup, ha, ih]

theorem lookup_dictDel_ne (inventory : Inv) (k k' : String) (h : k' ≠ k) :
    lookup (dictDel inventory k) k' = lookup inventory k' := by
  induction inventory with
  | nil => simp [dictDel]
  | cons p rest ih =>
      obtain ⟨a, w⟩ := p
      by_cases ha : a = k
      · subst ha
        simp [dictDel, lookup, Ne.symm h]
      · simp [dictDel, lookup, ha, ih]

theorem lookup_dictDel_self (inventory : Inv) (k : String)
    (h : keysNodup inventory) : lookup (dictDel inventory k) k = none := by
  induction inventory with
  | nil => simp [dictDel, lookup]
  | cons p rest ih =>
      obtain ⟨a, w⟩ := p
      have h' : a ∉ rest.map Prod.fst ∧ (rest.map Prod.fst).Nodup :=
        List.nodup_cons.mp (by simpa [keysNodup] using h)
      by_cases ha : a = k
      · subst ha
        simpa [dictDel, lookup_eq_none_iff] using h'.1
      · simp [dictDel, lookup, ha, ih h'.2]

theorem dictDel_dictSet (inventory : Inv) (k : String) (v : Int) :
    dictDel (dictSet inventory k v) k = dictDel inventory k := by
  induction inventory with
  | nil => simp [dictSet, dictDel]
  | cons p rest ih =>
      obtain ⟨a, w⟩ := p
      by_cases ha : a = k <;> simp [dictSet, dictDel, ha, ih]

theorem mem_keys_dictSet (inventory : Inv) (k : String) (v : Int) (a : String)
    (h : a ∈ (dictSet inventory k v).map Prod.fst) :
    a ∈ inventory.map Prod.fst ∨ a = k := by
  induction inventory with
  | nil => simpa [dictSet] using h
  | cons p rest ih =>
      obtain ⟨b, w⟩ := p
      by_cases hb : b = k
      · subst hb
        rcases (by simpa [dictSet] using h : a = b ∨ a ∈ rest.map Prod.fst) with h1 | h1
        · exact Or.inr h1
        · exact Or.inl (by simp [h1])
      · rcases (by simpa [dictSet, hb] using h : a = b ∨ a ∈ (dictSet rest k v).map Prod.fst)
          with h1 | h1
        · exact Or.inl (by simp [h1])
        · rcases ih h1 with h2 | h2
          · exact Or.inl (by simp [h2])
          · exact Or.inr h2

theorem keysNodup_dictSet (inventory : Inv) (k : String) (v : Int)
    (h : keysNodup inventory) : keysNodup (dictSet inventory k v) := by
  unfold keysNodup at h ⊢
  induction inventory with
  | nil => simp [dictSet]
  | cons p rest ih =>
      obtain ⟨a, w⟩ := p
      have h' : a ∉ rest.map Prod.fst ∧ (rest.map Prod.fst).Nodup :=
        List.nodup_cons.mp (by simpa using h)
      by_cases ha : a = k
      · subst ha
        simpa [dictSet] using h
      · simp only [dictSet, if_neg ha, List.map_cons]
        refine List.nodup_cons.mpr ⟨?_, ih h'.2⟩
        intro hmem
        rcases mem_keys_dictSet rest k v a hmem with h1 | h1
        · exact h'.1 h1
        · exact ha h1

theorem dictDel_sublist (inventory : Inv) (k : String) :
    (dictDel inventory k).Sublist inventory := by
  induction inventory with
  | nil => simp [dictDel]
  | cons p rest ih =>
      obtain ⟨a, w⟩ := p
      by_cases ha : a = k
      · simp only [dictDel, if_pos ha]
        exact List.sublist_cons_self (a, w) rest
      · simpa [dictDel, ha] using List.Sublist.cons₂ (a, w) ih

theorem keysNodup_dictDel (inventory : Inv) (k : String)
    (h : keysNodup inventory) : keysNodup (dictDel inventory k) :=
  List.Nodup.sublist (List.Sublist.map Prod.fst (dictDel_sublist inventory k)) h

theorem mem_dictSet (inventory : Inv) (k : String) (v : Int) (p : String × Int)
    (h : p ∈ dictSet inventory k v) : p = (k, v) ∨ p ∈ inventory := by
  induction inventory with
  | nil => simpa [dictSet] using h
  | cons q rest ih =>
      obtain ⟨a, w⟩ := q
      by_cases ha : a = k
      · subst ha
        rcases (by simpa [dictSet] using h) with h1 | h1
        · exact Or.inl h1
        · exact Or.inr (by simp [h1])
      · rcases (by simpa [dictSet, ha] using h) with h1 | h1
        · exact Or.inr (by simp [h1])
        · rcases ih h1 with h2 | h2
          · exact Or.inl h2
          · exact Or.inr (by simp [h2])

theorem mem_dictDel (inventory : Inv) (k : String) (p : String × Int)
    (h : p ∈ dictDel inventory k) : p ∈ inventory :=
  (dictDel_sublist inventory k).subset h

theorem dictSet_eq_append (inventory : Inv) (k : String) (v : Int)
    (h : lookup inventory k = none) : dictSet inventory k v = inventory ++ [(k, v)] := by
  induction inventory with
  | nil => simp [dictSet]
  | cons p rest ih =>
      obtain ⟨a, w⟩ := p
      have ha : ¬ a = k := by
        intro ha
        simp [lookup, ha] at h
      have h' : lookup rest k = none := by simpa [lookup, ha] using h
      simp [dictSet, ha, ih h']

/-! ## Simulation of operation traces -/

theorem lookup_applyOp (inventory : Inv) (op : Op) (item : String)
    (h : keysNodup inventory) :
    lookup (applyOp inventory op) item = specStep item (lookup inventory item) op := by
  cases op with
  | add s n =>
      by_cases hs : s = item
      · subst hs
        simp [applyOp, add_item, specStep, lookup_dictSet_self]
      · simp [applyOp, add_item, specStep, hs,
          lookup_dictSet_ne _ _ _ _ (Ne.symm hs)]
  | remove s n =>
      by_cases hs : s = item
      · subst hs
        cases hq : lookup inventory s with
        | none => simp [applyOp, remove_item, specStep, hq]
        | some q =>
            by_cases hle : q - n ≤ 0
            · simp [applyOp, remove_item, specStep, hq, hle, dictDel_dictSet,
                lookup_dictDel_self _ _ h]
            · simp [applyOp, remove_item, specStep, hq, hle, lookup_dictSet_self]
      · cases hq : lookup inventory s with
        | none => simp [applyOp, remove_item, specStep, hq, hs]
        | some q =>
            by_cases hle : q - n ≤ 0
            · simp [applyOp, remove_item, specStep, hq, hle, hs, dictDel_dictSet,
                lookup_dictDel_ne _ _ _ (Ne.symm hs),
                lookup_dictSet_ne _ _ _ _ (Ne.symm hs)]
            · simp [applyOp, remove_item, specStep, hq, hle, hs,
                lookup_dictSet_ne _ _ _ _ (Ne.symm hs)]

theorem keysNodup_applyOp (inventory : Inv) (op : Op)
    (h : keysNodup inventory) : keysNodup (applyOp inventory op) := by
  cases op with
  | add s n =>
      simp only [applyOp, add_item]
      exact keysNodup_dictSet _ _ _ h
  | remove s n =>
      cases hq : lookup inventory s with
      | none => simpa [applyOp, remove_item, hq] using h
      | some q =>
          by_cases hle : q - n ≤ 0
          · simp only [applyOp, remove_item, hq, if_pos hle]
            exact keysNodup_dictDel _ _ (keysNodup_dictSet _ _ _ h)
          · simp only [applyOp, remove_item, hq, if_neg hle]
            exact keysNodup_dictSet _ _ _ h

theorem lookup_runOps (ops : List Op) : ∀ (inventory : Inv), keysNodup inventory →
    ∀ item, lookup (runOps inventory ops) item =
      ops.foldl (specStep item) (lookup inventory item) := by
  induction ops with
  | nil =>
      intro inventory _ item
      simp [runOps]
  | cons op rest ih =>
      intro inventory h item
      simp only [runOps, List.foldl_cons]
      rw [ih _ (keysNodup_applyOp _ _ h) item, lookup_applyOp _ _ _ h]

theorem check_low_items_eq (inventory : Inv) (threshold : Int) :
    check_low_items inventory threshold =
      (inventory.filter (fun p => decide (p.2 < threshold))).map Prod.fst := by
  induction inventory with
  | nil => simp [check_low_items]
  | cons p rest ih =>
      obtain ⟨item, qty⟩ := p
      by_cases hq : qty < threshold <;>
        simp [check_low_items, hq, ih, List.filter_cons]

/-! ## Claim theorems -/

/-- Claim C1: running any sequence of well-typed Add and Remove operations
on an initially empty inventory, `get_qty item` returns exactly what the
spec predicts: the running sum of quantities added for `item` minus the
quantities removed for it, where a removal driving the quantity to 0 or
below deletes the entry (after which `get_qty` reads 0, and a later add
restarts from 0), and an item never present reads 0. -/
theorem C1_trace_get_qty (ops : List Op) (item : String) :
    get_qty (runOps [] ops) item = specQty item ops := by
  have h0 : keysNodup ([] : Inv) := by simp [keysNodup]
  have hl : lookup ([] : Inv) item = none := rfl
  rw [get_qty, lookup_runOps ops [] h0 item, hl, specQty]

/-- Claim C2: on an inventory whose entry for `item` holds `q`, removing
an integer `qty` stores `q - qty` when that is positive, and otherwise
deletes the entry entirely, after which `get_qty` returns 0. -/
theorem C2_remove_present (inventory : Inv) (item : String) (q qty : Int)
    (hq : lookup inventory item = some q) (h : keysNodup inventory) :
    remove_item inventory item (.int qty) =
      (if 0 < q - qty then dictSet inventory item (q - qty)
       else dictDel inventory item) ∧
    get_qty (remove_item inventory item (.int qty)) item =
      (if 0 < q - qty then q - qty else 0) := by
  by_cases hle : q - qty ≤ 0
  · have hpos : ¬ 0 < q - qty := not_lt.mpr hle
    refine ⟨?_, ?_⟩
    · simp [remove_item, hq, hle, hpos, dictDel_dictSet]
    · simp [get_qty, remove_item, hq, hle, hpos, dictDel_dictSet,
        lookup_dictDel_self _ _ h]
  · have hpos : 0 < q - qty := not_le.mp hle
    refine ⟨?_, ?_⟩
    · simp [remove_item, hq, hle, hpos]
    · simp [get_qty, remove_item, hq, hle, hpos, lookup_dictSet_self]

/-- Concrete instance of C2 (the spec's Scenario 2): removing 3 apples
from 10 leaves 7. -/
theorem C2_remove_present_witness :
    remove_item [("apple", (10 : Int))] "apple" (.int 3) =
      (if 0 < (10 : Int) - 3 then dictSet [("apple", (10 : Int))] "apple" (10 - 3)
       else dictDel [("apple", (10 : Int))] "apple") ∧
    get_qty (remove_item [("apple", (10 : Int))] "apple" (.int 3)) "apple" =
      (if 0 < (10 : Int) - 3 then 10 - 3 else 0) :=
  C2_remove_present [("apple", 10)] "apple" 10 3 (by simp [lookup])
    (by simp [keysNodup])

/-- Claim C3 as stated is false: a removal only examines the entry for the
item being removed, so a pre-existing entry with non-positive quantity in
the rest of the mapping survives the call. Here `remove_item` on a missing
item leaves the entry `("a", -5)` in place. -/
theorem C3_counterexample :
    ¬ ∀ (inventory : Inv) (item : String) (qty : PyVal),
        ∀ p ∈ remove_item inventory item qty, 0 < p.2 := by
  intro hall
  have h5 := hall [("a", -5)] "b" (.int 1) ("a", -5)
    (by simp [remove_item, lookup])
  exact absurd h5 (by decide)

/-- Claim C3 amended: a removal preserves the all-positive invariant — if
every entry had strictly positive quantity before `remove_item`, every
entry remaining afterwards has strictly positive quantity. -/
theorem C3_remove_preserves_positive (inventory : Inv) (item : String)
    (qty : PyVal) (h : ∀ p ∈ inventory, 0 < p.2) :
    ∀ p ∈ remove_item inventory item qty, 0 < p.2 := by
  intro p hp
  cases hq : lookup inventory item with
  | none => exact h p (by simpa [remove_item, hq] using hp)
  | some q =>
      cases qty with
      | str s => exact h p (by simpa [remove_item, hq] using hp)
      | obj => exact h p (by simpa [remove_item, hq] using hp)
      | int n =>
          by_cases hle : q - n ≤ 0
          · rw [remove_item] at hp
            simp only [hq, if_pos hle, dictDel_dictSet] at hp
            exact h p (mem_dictDel _ _ _ hp)
          · rw [remove_item] at hp
            simp only [hq, if_neg hle] at hp
            rcases mem_dictSet _ _ _ _ hp with h1 | h1
            · rw [h1]
              simpa using not_le.mp hle
            · exact h p h1

/-- Concrete instance of the amended C3: removing 1 apple from 2 keeps
every remaining quantity positive. -/
theorem C3_remove_preserves_positive_witness :
    0 < (("apple", (1 : Int)) : String × Int).2 :=
  C3_remove_preserves_positive [("apple", 2)] "apple" (.int 1) (by decide)
    ("apple", 1) (by simp [remove_item, lookup, dictSet])

/-- Claim C4: saving an inventory (text keys, integer values) and loading
the same path back yields a mapping equal to the original, with each
integer quantity represented as the corresponding JSON integer. -/
theorem C4_save_load_roundtrip (inventory : Inv) (filename : String) (fs : FS) :
    load_data filename (save_data inventory filename fs) =
      inventory.map (fun p => (p.1, JVal.jint p.2)) := by
  simp [load_data, save_data, toJson, JVal.isDict, JVal.entries]

/-- Claim C5: `check_low_items` returns exactly the names of the items
whose quantity is strictly below the threshold, in the mapping's iteration
order (it is a pure function of the inventory: it only builds the returned
list and never produces a modified mapping). -/
theorem C5_check_low_items (inventory : Inv) (threshold : Int) :
    check_low_items inventory threshold =
      (inventory.filter (fun p => decide (p.2 < threshold))).map Prod.fst :=
  check_low_items_eq inventory threshold

/-- Claim C6: `load_data` returns an empty inventory when the file is
absent (`FileNotFoundError`), when its text does not parse
(`JSONDecodeError`), and when the parsed value is not a dict; when the
file holds a JSON object it returns that object's entries. -/
theorem C6_load_data_failures (fs : FS) (filename : String) :
    (fs filename = .absent → load_data filename fs = []) ∧
    (fs filename = .invalidText → load_data filename fs = []) ∧
    (∀ v, fs filename = .jsonOf v → v.isDict = false →
      load_data filename fs = []) ∧
    (∀ es, fs filename = .jsonOf (.jobj es) → load_data filename fs = es) := by
  refine ⟨?_, ?_, ?_, ?_⟩
  · intro h
    simp [load_data, h]
  · intro h
    simp [load_data, h]
  · intro v hv hd
    simp [load_data, hv, hd]
  · intro es he
    simp [load_data, he, JVal.isDict, JVal.entries]

/-- Concrete instance of C6 (the spec's Scenario 6): loading from a path
with no file yields the empty mapping. -/
theorem C6_load_data_failures_witness :
    load_data "inventory.json" (fun _ => .absent) = [] :=
  (C6_load_data_failures (fun _ => .absent) "inventory.json").1 rfl

/-- Claim C7: `add_item` with a non-text item or a non-integer quantity
performs no mutation. -/
theorem C7_add_item_invalid_types (inventory : Inv) (item qty : PyVal)
    (h : item.isStr = false ∨ qty.isInt = false) :
    add_item inventory item qty = inventory := by
  cases item with
  | str s =>
      cases qty with
      | int n => simp [PyVal.isStr, PyVal.isInt] at h
      | str t => rfl
      | obj => rfl
  | int n => rfl
  | obj => rfl

/-- Concrete instance of C7: the demo's intentionally invalid call
`add_item(stock_data, 123, "ten")` leaves the inventory unchanged. -/
theorem C7_add_item_invalid_types_witness :
    add_item [] (.int 123) (.str "ten") = [] :=
  C7_add_item_invalid_types [] (.int 123) (.str "ten") (Or.inl rfl)

/-- Claim C8: `remove_item` on an item absent from the inventory is a
no-op for every quantity argument. -/
theorem C8_remove_item_absent (inventory : Inv) (item : String) (qty : PyVal)
    (h : lookup inventory item = none) :
    remove_item inventory item qty = inventory := by
  simp [remove_item, h]

/-- Concrete instance of C8 (the spec's Scenario 4): removing "orange"
from an inventory without it leaves the inventory unchanged. -/
theorem C8_remove_item_absent_witness :
    remove_item [("apple", (7 : Int)), ("banana", 2)] "orange" (.int 1) =
      [("apple", (7 : Int)), ("banana", 2)] :=
  C8_remove_item_absent [("apple", 7), ("banana", 2)] "orange" (.int 1)
    (by simp [lookup])

/-- Claim C9: `remove_item` on a present item with a non-numeric quantity
argument raises `TypeError` inside the `try` before any assignment, the
handler only prints, and the whole inventory is left unchanged. -/
theorem C9_remove_item_bad_qty (inventory : Inv) (item : String) (q : Int)
    (qty : PyVal) (hq : lookup inventory item = some q)
    (h : qty.isInt = false) : remove_item inventory item qty = inventory := by
  cases qty with
  | int n => simp [PyVal.isInt] at h
  | str s => simp [remove_item, hq]
  | obj => simp [remove_item, hq]

/-- Concrete instance of C9: removing the string "ten" apples leaves the
inventory unchanged. -/
theorem C9_remove_item_bad_qty_witness :
    remove_item [("apple", (10 : Int))] "apple" (.str "ten") =
      [("apple", (10 : Int))] :=
  C9_remove_item_bad_qty [("apple", 10)] "apple" 10 (.str "ten")
    (by simp [lookup]) rfl

/-- Claim C10: `add_item` does not clamp the quantity — adding an integer
`qty ≤ 0` under a fresh key appends an entry holding that non-positive
quantity, `get_qty` then reads it back, and the pure `check_low_items`
query reports the item (below any threshold ≥ 5 > 0 ≥ qty) without
deleting it. -/
theorem C10_add_item_nonpositive (inventory : Inv) (item : String) (qty : Int)
    (habs : lookup inventory item = none) (hq : qty ≤ 0) :
    add_item inventory (.str item) (.int qty) = inventory ++ [(item, qty)] ∧
    get_qty (add_item inventory (.str item) (.int qty)) item = qty ∧
    item ∈ check_low_items (add_item inventory (.str item) (.int qty)) 5 := by
  have heq : add_item inventory (.str item) (.int qty) =
      inventory ++ [(item, qty)] := by
    rw [add_item]
    simp only [habs, Option.getD_none, zero_add]
    exact dictSet_eq_append inventory item qty habs
  refine ⟨heq, ?_, ?_⟩
  · rw [add_item]
    simp only [habs, Option.getD_none, zero_add]
    simp [get_qty, lookup_dictSet_self]
  · rw [heq, check_low_items_eq]
    refine List.mem_map.mpr ⟨(item, qty), ?_, rfl⟩
    refine List.mem_filter.mpr ⟨by simp, ?_⟩
    simpa using lt_of_le_of_lt hq (by norm_num)

/-- Concrete instance of C10: adding -2 "ghost" creates and keeps a
negative entry, visible to `get_qty` and `check_low_items`. -/
theorem C10_add_item_nonpositive_witness :
    add_item [] (.str "ghost") (.int (-2)) = [] ++ [("ghost", -2)] ∧
    get_qty (add_item [] (.str "ghost") (.int (-2))) "ghost" = -2 ∧
    "ghost" ∈ check_low_items (add_item [] (.str "ghost") (.int (-2))) 5 :=
  C10_add_item_nonpositive [] "ghost" (-2) rfl (by norm_num)

end Inventory
